import Mathlib

/-!
Shallow embedding of the chunk-preparation core of the `delta` repository
(`delta/imagery/dataset.py`), together with theorems settling the frozen
claims about its specification.

Conventions used throughout:
* Python integers are `Int` (or `Nat` where the source value is always a
  count); Python `math.floor(a / b)` and `a // b` on integers are `Int.fdiv`
  (floor division), and Python `%` is `Int.fmod` (sign follows the divisor,
  which agrees with `Int.emod` for the positive divisors used here).
* Pixel values are modelled as `Int`; the nodata logic of the source only
  compares pixels with the sentinel `0`, so no floating-point behaviour is
  involved in any claim.
* Python exceptions are values of `PyError`; a fallible operation returns
  `Except PyError α`.
* Thread-pool code (`parallel_filter_chunks`) writes disjoint entries of a
  shared flag array; the embedding passes the flag state explicitly through
  a fold over the per-thread index ranges, which computes the same final
  flags because each index is written by exactly one range.
-/

namespace Delta

/-- Python exceptions that the embedded code can raise.  `unrecognizedType`
stands for the `Exception('Unrecognized input type: ...')` that
`ImageryDataset.__init__` tries (and, per claim C10, fails) to raise. -/
inductive PyError where
  | keyError
  | indexError
  | valueError
  | assertionError
  | unrecognizedType
deriving DecidableEq

/-- Embeds `utilities.Rectangle(min_x, min_y, max_x, max_y)`: a plain pixel-space
region of interest, half-open in both axes. -/
structure Rectangle where
  min_x : Int
  min_y : Int
  max_x : Int
  max_y : Int
deriving DecidableEq

/-- Embeds `get_roi_horiz_band_split(image_size, region, num_splits)` from
`dataset.py`.  The Python `assert region < num_splits` is modelled as the
guard returning `PyError.assertionError`; `math.floor(band_height*region)`
with `band_height = image_size[1] / num_splits` equals
`Int.fdiv (height * region) num_splits` in exact arithmetic. -/
def get_roi_horiz_band_split (image_size : Int × Int) (region num_splits : Int) :
    Except PyError Rectangle :=
  if region < num_splits then
    Except.ok
      { min_x := 0
        min_y := Int.fdiv (image_size.2 * region) num_splits
        max_x := image_size.1
        max_y := Int.fdiv (image_size.2 * (region + 1)) num_splits }
  else Except.error PyError.assertionError

/-- Embeds `tile_row = math.floor(region / num_splits)` inside `get_roi_tile_split`. -/
def tile_row_of (region num_splits : Int) : Int :=
  Int.fdiv region num_splits

/-- Embeds `tile_col = region % num_splits` inside `get_roi_tile_split` (Python `%`,
i.e. sign follows the divisor). -/
def tile_col_of (region num_splits : Int) : Int :=
  Int.fmod region num_splits

/-- Embeds `get_roi_tile_split(image_size, region, num_splits)` from `dataset.py`.
`assert region < num_tiles` guards; tile sizes are floored quotients of the
image dimensions, and the min/max corners are products with the tile row and
column indices (`math.floor` of an integer-valued product is the product). -/
def get_roi_tile_split (image_size : Int × Int) (region num_splits : Int) :
    Except PyError Rectangle :=
  let num_tiles := num_splits * num_splits
  if region < num_tiles then
    let tile_row := tile_row_of region num_splits
    let tile_col := tile_col_of region num_splits
    let tile_width := Int.fdiv image_size.1 num_splits
    let tile_height := Int.fdiv image_size.2 num_splits
    Except.ok
      { min_x := tile_width * tile_col
        min_y := tile_height * tile_row
        max_x := tile_width * (tile_col + 1)
        max_y := tile_height * (tile_row + 1) }
  else Except.error PyError.assertionError

/-! ### Region descriptor codec

`make_image_list` writes one line `path + ',' + str(r) + '\n'` per
(file, region) pair; `load_image_region` decodes a line with
`parts = line.split(',')`, `path = parts[0].strip()`,
`region = int(parts[1].strip())`.  Lines are modelled as `List Char`
(excluding the terminating newline, which the line reader strips). -/

/-- The decimal digit character for `d` (used by `str(r)` for `0 ≤ d ≤ 9`). -/
def digitChar (d : Nat) : Char :=
  match d with
  | 0 => '0' | 1 => '1' | 2 => '2' | 3 => '3' | 4 => '4'
  | 5 => '5' | 6 => '6' | 7 => '7' | 8 => '8' | _ => '9'

/-- Fuel-driven helper for `natToDigits` (structural recursion so that the
kernel can evaluate it on concrete inputs).  The fuel is an upper bound on
the value being printed, so it never runs out. -/
def natToDigitsAux (fuel : Nat) (n : Nat) : List Char :=
  match fuel with
  | 0 => []
  | fuel + 1 =>
    if n < 10 then [digitChar n]
    else natToDigitsAux fuel (n / 10) ++ [digitChar (n % 10)]

/-- Python `str(n)` for a non-negative integer `n`: its decimal digits. -/
def natToDigits (n : Nat) : List Char :=
  natToDigitsAux (n + 1) n

/-- Evaluate a list of decimal digit characters as a number (the numeric
content of Python `int(s)` once `s` is known to be all digits). -/
def digitsToNat (cs : List Char) : Nat :=
  cs.foldl (fun a c => a * 10 + (c.toNat - 48)) 0

/-- Python `line.split(',')`: split into comma-separated fields; always
returns at least one (possibly empty) field. -/
def splitOnComma : List Char → List (List Char)
  | [] => [[]]
  | c :: rest =>
    if c = ',' then [] :: splitOnComma rest
    else
      match splitOnComma rest with
      | [] => [[c]]
      | f :: fs => (c :: f) :: fs

/-- Python `s.strip()`: drop whitespace from both ends. -/
def stripChars (cs : List Char) : List Char :=
  (((cs.dropWhile Char.isWhitespace).reverse.dropWhile Char.isWhitespace)).reverse

/-- Parse a non-empty all-digits string (the unsigned part of Python
`int(s)`; underscore separators and non-ASCII digits are not modelled). -/
def parseUnsigned (cs : List Char) : Option Nat :=
  if cs.isEmpty then none
  else if cs.all Char.isDigit then some (digitsToNat cs) else none

/-- Python `int(s)`: strip surrounding whitespace, allow one optional
leading `+`/`-` sign, then require a non-empty run of decimal digits.
Note that a leading `-` is accepted and produces a negative value. -/
def pyInt (cs : List Char) : Option Int :=
  match stripChars cs with
  | [] => none
  | c :: rest =>
    if c = '-' then (parseUnsigned rest).map (fun n => -(n : Int))
    else if c = '+' then (parseUnsigned rest).map (fun n => (n : Int))
    else (parseUnsigned (c :: rest)).map (fun n => (n : Int))

/-- The descriptor line written by `make_image_list` for one
(file, region) pair: `path + ',' + str(r)` (newline excluded). -/
def encode_descriptor (path : List Char) (r : Nat) : List Char :=
  path ++ ',' :: natToDigits r

/-- The descriptor decoding performed at the top of `load_image_region`
(and `load_fake_labels`): split on commas, strip both used fields, parse
the region index with `int`.  Accessing a missing `parts[1]` raises
`IndexError`; a failing `int` raises `ValueError`. -/
def decode_descriptor (line : List Char) : Except PyError (List Char × Int) :=
  match splitOnComma line with
  | p0 :: p1 :: _ =>
    match pyInt (stripChars p1) with
    | some n => Except.ok (stripChars p0, n)
    | none => Except.error PyError.valueError
  | _ => Except.error PyError.indexError

/-! ### Nodata chunk filter

A chunk is a `[num_bands, width, height]` pixel array, modelled as nested
lists; a chunk batch is the `[num_chunks, num_bands, width, height]` array
produced by one extraction call. -/

/-- One chunk: bands, each a `width × height` grid of pixels. -/
abbrev Chunk := List (List (List Int))

/-- All pixels of a chunk, across every band. -/
def chunkPixels (c : Chunk) : List Int :=
  (c.map (fun band => band.flatten)).flatten

/-- The inline nodata test applied by `ImageryDataset.__init__`:
`ds.filter(lambda chunk, label: tf.math.equal(tf.math.zero_fraction(chunk), 0))`.
`zero_fraction(chunk) == 0` holds exactly when the chunk contains no zero
pixel, i.e. when the count of zero pixels is zero. -/
def inline_is_valid (c : Chunk) : Bool :=
  (chunkPixels c).countP (fun p => p == 0) == 0

/-- A chunk batch together with its shape, mirroring `data.shape() ==
(num_chunks, num_bands, width, height)` in `parallel_filter_chunks`. -/
structure ChunkBatch where
  chunks : List Chunk
  num_bands : Nat
  width : Nat
  height : Nat

/-- The batch really has the shape it claims (what numpy guarantees for a
4-dimensional array). -/
def ChunkBatch.WellFormed (b : ChunkBatch) : Prop :=
  ∀ c ∈ b.chunks, c.length = b.num_bands ∧
    ∀ band ∈ c, band.length = b.width ∧
      ∀ row ∈ band, row.length = b.height

instance (b : ChunkBatch) : Decidable b.WellFormed := by
  unfold ChunkBatch.WellFormed
  infer_instance

/-- Embeds `data[i, 0, :, :]`: band 0 of chunk `i` (the only band
`parallel_filter_chunks` examines). -/
def bandZero (b : ChunkBatch) (i : Nat) : List (List Int) :=
  (b.chunks.getD i []).getD 0 []

/-- Embeds `np.count_nonzero` over one band. -/
def countNonzero (band : List (List Int)) : Nat :=
  band.flatten.countP (fun p => p != 0)

/-- The per-chunk test of `check_chunks`: chunk `i` stays valid unless
`np.count_nonzero(data[i, 0, :, :]) != width * height`. -/
def chunkPasses (b : ChunkBatch) (i : Nat) : Bool :=
  countNonzero (bandZero b i) == b.width * b.height

/-- The `(start_index, stop_index)` pairs handed to the thread pool:
`(floor(i * num_chunks / num_threads), floor((i+1) * num_chunks / num_threads))`
for `i < num_threads` (exact rational arithmetic; `Nat` division is the
floor). -/
def thread_splits (num_chunks num_threads : Nat) : List (Nat × Nat) :=
  (List.range num_threads).map
    (fun i => (i * num_chunks / num_threads, (i + 1) * num_chunks / num_threads))

/-- Embeds `check_chunks(pair)`: walk the indices in `[start_index, stop_index)`
and clear the flag of every chunk that fails the nonzero-count test.  The
shared `valid_chunks` array is passed explicitly as `flags`. -/
def check_chunks (b : ChunkBatch) (flags : Nat → Bool) (pair : Nat × Nat) :
    Nat → Bool :=
  (List.range' pair.1 (pair.2 - pair.1)).foldl
    (fun fl i =>
      if chunkPasses b i then fl
      else fun j => if j = i then false else fl j)
    flags

/-- The final contents of `valid_chunks` after `pool.map(check_chunks, splits)`
and `pool.join()`: each index is written by exactly one split, so the
parallel execution computes the same flags as this sequential fold. -/
def parallel_filter_chunks_flags (b : ChunkBatch) (num_threads : Nat) :
    Nat → Bool :=
  (thread_splits b.chunks.length num_threads).foldl (check_chunks b)
    (fun _ => true)

/-- The `valid_indices` list built by `parallel_filter_chunks`: the indices
whose flag survived, in increasing order. -/
def parallel_filter_chunks_indices (b : ChunkBatch) (num_threads : Nat) :
    List Nat :=
  (List.range b.chunks.length).filter (parallel_filter_chunks_flags b num_threads)

/-- Embeds `parallel_filter_chunks(data, num_threads)`: the surviving chunks,
`data[valid_indices, :, :, :]`. -/
def parallel_filter_chunks (b : ChunkBatch) (num_threads : Nat) : List Chunk :=
  (parallel_filter_chunks_indices b num_threads).map (fun i => b.chunks.getD i [])

/-! ### Manifest generation and dataset construction

`make_image_list` walks a folder tree and writes one descriptor line per
(matching file, region) pair; `ImageryDataset.__init__` looks the image
type up in two string-keyed dictionaries (inside `try ... except
IndexError` handlers), builds the manifest, and asserts the entry count is
positive.  The filesystem walk is abstracted to the list of file names it
yields; disk-cache side effects are irrelevant to every claim and omitted. -/

/-- Embeds `os.path.splitext(filename)[1]` for a bare file name (no directory
separators, as produced by `os.walk`): the suffix starting at the last dot,
unless every character before that dot is itself a dot (hidden files like
`.bashrc` have no extension). -/
def splitextExt (fn : List Char) : List Char :=
  let rev := fn.reverse
  let extRev := rev.takeWhile (fun c => c ≠ '.')
  if extRev.length = rev.length then []
  else if (rev.drop (extRev.length + 1)).all (fun c => c = '.') then []
  else '.' :: extRev.reverse

/-- Embeds `make_image_list(top_folder, output_path, ext, num_regions)`: for every
walked file whose extension equals `ext`, write the lines
`path + ',' + str(r)` for `r ∈ [0, num_regions)` and count them.  Returns
(written lines, `num_entries`). -/
def make_image_list (walked : List (List Char)) (ext : List Char)
    (num_regions : Nat) : List (List Char) × Nat :=
  walked.foldl
    (fun acc fn =>
      if splitextExt fn = ext then
        (acc.1 ++ (List.range num_regions).map (fun r => encode_descriptor fn r),
         acc.2 + num_regions)
      else acc)
    ([], 0)

/-- Embeds the table `num_bands_dict` mapping landsat and worldview to 8
bands, tif and rgba to 3. -/
def num_bands_dict : List (String × Nat) :=
  [("landsat", 8), ("worldview", 8), ("tif", 3), ("rgba", 3)]

/-- Embeds the table `ext_dict` mapping landsat to `.gz`, worldview to
`.zip`, tif and rgba to `.tif`. -/
def ext_dict : List (String × String) :=
  [("landsat", ".gz"), ("worldview", ".zip"), ("tif", ".tif"), ("rgba", ".tif")]

/-- Python dictionary subscription `d[k]`: raises `KeyError` when the key
is missing. -/
def dictLookup {α : Type} (d : List (String × α)) (k : String) :
    Except PyError α :=
  match d.find? (fun p => p.1 == k) with
  | some p => Except.ok p.2
  | none => Except.error PyError.keyError

/-- Embeds a `try` body whose `except IndexError` clause raises the handler
exception — only an `IndexError`
from the body is converted into the handler's exception; every other
exception (in particular `KeyError`) propagates unchanged. -/
def tryExceptIndexError {α : Type} (body : Except PyError α)
    (handler : PyError) : Except PyError α :=
  match body with
  | Except.error PyError.indexError => Except.error handler
  | other => other

/-- The failure-relevant prefix of `ImageryDataset.__init__`: the two
dictionary lookups (each wrapped in `try ... except IndexError`), the
manifest build, and `assert self._num_regions > 0`.  On success it returns
`num_entries` (the value served by the `num_regions()` accessor). -/
def imagery_dataset_init (image_type : String) (walked : List (List Char))
    (num_regions : Nat) : Except PyError Nat :=
  match tryExceptIndexError (dictLookup num_bands_dict image_type)
      PyError.unrecognizedType with
  | Except.error e => Except.error e
  | Except.ok _num_bands =>
    match tryExceptIndexError (dictLookup ext_dict image_type)
        PyError.unrecognizedType with
    | Except.error e => Except.error e
    | Except.ok ext =>
      let count := (make_image_list walked ext.data num_regions).2
      if count > 0 then Except.ok count
      else Except.error PyError.assertionError

/-! ### Helper lemmas -/

/-- Splitting `[0, n)` into `t` bands by independent flooring covers every
index: each `i < n` lies in the band `[k*n/t, (k+1)*n/t)` for some `k < t`.
This single fact drives both the horizontal-band partitioner coverage and
the thread-split coverage of the batch nodata filter. -/
theorem nat_div_band_coverage (n t i : Nat) (ht : 0 < t) (hi : i < n) :
    ∃ k, k < t ∧ k * n / t ≤ i ∧ i < (k + 1) * n / t := by
  have hn : 0 < n := Nat.lt_of_le_of_lt (Nat.zero_le i) hi
  refine ⟨((i + 1) * t - 1) / n, ?_, ?_, ?_⟩
  · apply (Nat.div_lt_iff_lt_mul hn).2
    have hmul : (i + 1) * t ≤ n * t := Nat.mul_le_mul_right t (by omega)
    have : 0 < (i + 1) * t := Nat.mul_pos (by omega) ht
    rw [Nat.mul_comm t n]
    omega
  · have h1 : ((i + 1) * t - 1) / n * n ≤ (i + 1) * t - 1 := Nat.div_mul_le_self _ _
    have h2 : ((i + 1) * t - 1) / n * n / t < i + 1 := by
      apply (Nat.div_lt_iff_lt_mul ht).2
      have : 0 < (i + 1) * t := Nat.mul_pos (by omega) ht
      omega
    omega
  · rw [Nat.lt_iff_add_one_le]
    apply (Nat.le_div_iff_mul_le ht).2
    have e := Nat.div_add_mod ((i + 1) * t - 1) n
    have hr : ((i + 1) * t - 1) % n < n := Nat.mod_lt _ hn
    have hpos : 0 < (i + 1) * t := Nat.mul_pos (by omega) ht
    have h3 : (((i + 1) * t - 1) / n + 1) * n = n * (((i + 1) * t - 1) / n) + n := by
      ring
    omega

/-- A list none of whose elements satisfies `p` is unchanged by `dropWhile p`. -/
theorem dropWhile_of_all_false {α : Type} (p : α → Bool) :
    ∀ l : List α, (∀ c ∈ l, p c = false) → l.dropWhile p = l := by
  intro l h
  cases l with
  | nil => rfl
  | cons a t => simp [List.dropWhile_cons, h a (by simp)]

/-- Stripping is the identity on strings with no whitespace anywhere. -/
theorem stripChars_eq_self {cs : List Char}
    (h : ∀ c ∈ cs, c.isWhitespace = false) : stripChars cs = cs := by
  unfold stripChars
  rw [dropWhile_of_all_false _ cs h,
    dropWhile_of_all_false _ cs.reverse (fun c hc => h c (List.mem_reverse.1 hc)),
    List.reverse_reverse]

/-- Decimal digits are not whitespace. -/
theorem isDigit_not_whitespace {c : Char} (h : c.isDigit = true) :
    c.isWhitespace = false := by
  by_cases h1 : c = ' '
  · subst h1; simp at h
  by_cases h2 : c = '\t'
  · subst h2; simp at h
  by_cases h3 : c = '\r'
  · subst h3; simp at h
  by_cases h4 : c = '\n'
  · subst h4; simp at h
  simp [Char.isWhitespace, h1, h2, h3, h4]

/-- Each `digitChar` is a decimal digit character. -/
theorem digitChar_isDigit (d : Nat) : (digitChar d).isDigit = true := by
  unfold digitChar
  split <;> decide

/-- The code of `digitChar d` for `d < 10` is `48 + d`. -/
theorem digitChar_toNat {d : Nat} (h : d < 10) : (digitChar d).toNat = 48 + d := by
  interval_cases d <;> rfl

/-- Unfolding equation for `splitOnComma` on a non-empty string. -/
theorem splitOnComma_cons (c : Char) (rest : List Char) :
    splitOnComma (c :: rest) =
      if c = ',' then [] :: splitOnComma rest
      else
        match splitOnComma rest with
        | [] => [[c]]
        | f :: fs => (c :: f) :: fs := rfl

/-- Printing with enough fuel yields a non-empty, all-digit string that
evaluates back to the printed number. -/
theorem natToDigitsAux_spec :
    ∀ fuel n, n < fuel →
      natToDigitsAux fuel n ≠ [] ∧
      (∀ c ∈ natToDigitsAux fuel n, c.isDigit = true) ∧
      digitsToNat (natToDigitsAux fuel n) = n := by
  intro fuel
  induction fuel with
  | zero => intro n hn; omega
  | succ fuel ih =>
    intro n hn
    unfold natToDigitsAux
    by_cases h10 : n < 10
    · refine ⟨by simp [h10], ?_, ?_⟩
      · simp only [if_pos h10]
        intro c hc
        rw [List.mem_singleton] at hc
        subst hc
        exact digitChar_isDigit n
      · simp only [if_pos h10]
        unfold digitsToNat
        simp [digitChar_toNat h10]
    · have hrec : n / 10 < fuel := by
        have : n / 10 < n := Nat.div_lt_self (by omega) (by omega)
        omega
      obtain ⟨hne, hdig, hval⟩ := ih (n / 10) hrec
      simp only [if_neg h10]
      refine ⟨by simp, ?_, ?_⟩
      · intro c hc
        rw [List.mem_append] at hc
        rcases hc with hc | hc
        · exact hdig c hc
        · rw [List.mem_singleton] at hc
          subst hc
          exact digitChar_isDigit (n % 10)
      · unfold digitsToNat
        rw [List.foldl_append]
        unfold digitsToNat at hval
        rw [hval]
        simp only [List.foldl_cons, List.foldl_nil]
        rw [digitChar_toNat (Nat.mod_lt n (by omega))]
        have := Nat.div_add_mod n 10
        omega

/-- Printing `str(n)` round-trips: non-empty, all digits, parses back to `n`. -/
theorem natToDigits_spec (n : Nat) :
    natToDigits n ≠ [] ∧
    (∀ c ∈ natToDigits n, c.isDigit = true) ∧
    digitsToNat (natToDigits n) = n :=
  natToDigitsAux_spec (n + 1) n (Nat.lt_succ_self n)

/-- Splitting a comma-free string yields the single field. -/
theorem splitOnComma_no_comma : ∀ {cs : List Char}, ',' ∉ cs →
    splitOnComma cs = [cs] := by
  intro cs
  induction cs with
  | nil => intro _; rfl
  | cons c rest ih =>
    intro h
    have hc : ¬(c = ',') := fun e => h (by rw [e]; simp)
    have hrest : ',' ∉ rest := fun m => h (by simp [m])
    rw [splitOnComma_cons, if_neg hc, ih hrest]

/-- Splitting `path ++ "," ++ rest` when `path` is comma-free peels off
`path` as the first field. -/
theorem splitOnComma_append : ∀ (path rest : List Char), ',' ∉ path →
    splitOnComma (path ++ ',' :: rest) = path :: splitOnComma rest := by
  intro path
  induction path with
  | nil =>
    intro rest _
    show splitOnComma (',' :: rest) = [] :: splitOnComma rest
    rw [splitOnComma_cons, if_pos rfl]
  | cons c p ih =>
    intro rest h
    have hc : ¬(c = ',') := fun e => h (by rw [e]; simp)
    have hp : ',' ∉ p := fun m => h (by simp [m])
    show splitOnComma (c :: (p ++ ',' :: rest)) = (c :: p) :: splitOnComma rest
    rw [splitOnComma_cons, if_neg hc, ih rest hp]

/-! ### Claim C1: the inline nodata test -/

/-- Claim C1 counterexample: the chunk `[[[1, 0]]]` contains the non-zero
pixel `1`, yet the inline filter classifies it as invalid, refuting "for
every chunk containing at least one non-zero pixel, `is_valid(chunk)` is
true".  The code keeps a chunk only when its zero fraction is exactly 0. -/
theorem inline_filter_rejects_partial_chunk :
    inline_is_valid [[[1, 0]]] = false ∧
    (1 : Int) ∈ chunkPixels [[[1, 0]]] ∧ (1 : Int) ≠ 0 := by
  decide

/-- Claim C1 amended: the inline nodata filter classifies a chunk as valid
if and only if no pixel across any band equals the nodata sentinel zero
(so it is false for every chunk containing even one zero pixel, not only
for all-zero chunks). -/
theorem inline_is_valid_iff (c : Chunk) :
    inline_is_valid c = true ↔ ∀ p ∈ chunkPixels c, p ≠ 0 := by
  unfold inline_is_valid
  rw [beq_iff_eq, List.countP_eq_zero]
  constructor
  · intro h p hp
    have := h p hp
    simpa using this
  · intro h p hp
    simpa using h p hp

/-! ### Claim C6: out-of-range region indices -/

/-- Claim C6: for every `region_index` at or above the strategy's region
count (`num_splits` for horizontal bands, `num_splits²` for the tile grid)
the partitioner raises (`assert region < ...` fails) and returns no
Rectangle. -/
theorem partitioner_invalid_region (image_size : Int × Int)
    (region num_splits : Int) :
    (num_splits ≤ region →
      get_roi_horiz_band_split image_size region num_splits =
        Except.error PyError.assertionError) ∧
    (num_splits * num_splits ≤ region →
      get_roi_tile_split image_size region num_splits =
        Except.error PyError.assertionError) := by
  constructor
  · intro h
    unfold get_roi_horiz_band_split
    rw [if_neg (not_lt.mpr h)]
  · intro h
    unfold get_roi_tile_split
    rw [if_neg (not_lt.mpr h)]

/-- Witness for C6 at a concrete out-of-range index. -/
theorem partitioner_invalid_region_witness :
    get_roi_horiz_band_split (100, 40) 20 4 =
      Except.error PyError.assertionError ∧
    get_roi_tile_split (100, 40) 20 4 =
      Except.error PyError.assertionError :=
  ⟨(partitioner_invalid_region (100, 40) 20 4).1 (by decide),
   (partitioner_invalid_region (100, 40) 20 4).2 (by decide)⟩

/-! ### Claim C7: tile-grid region count and index decomposition -/

/-- Claim C7: with `num_splits = N`, a (non-negative) region index is
accepted by the tile-grid partitioner exactly when it is below `N²`, and
the row/column decomposition used by `get_roi_tile_split` round-trips:
`row * N + col` decomposes back to `(row, col)` for `row, col < N`. -/
theorem tile_split_region_count (num_splits : Nat) (hs : 0 < num_splits)
    (image_size : Int × Int) :
    (∀ region : Nat,
      (∃ rect, get_roi_tile_split image_size (↑region) (↑num_splits) =
        Except.ok rect) ↔ region < num_splits * num_splits) ∧
    (∀ row col : Nat, row < num_splits → col < num_splits →
      tile_row_of (↑(row * num_splits + col)) (↑num_splits) = ↑row ∧
      tile_col_of (↑(row * num_splits + col)) (↑num_splits) = ↑col) := by
  constructor
  · intro region
    unfold get_roi_tile_split
    by_cases hlt : region < num_splits * num_splits
    · have hgl : (↑region : Int) < ↑num_splits * ↑num_splits := by
        exact_mod_cast hlt
      rw [if_pos hgl]
      exact ⟨fun _ => hlt, fun _ => ⟨_, rfl⟩⟩
    · have hgl : ¬((↑region : Int) < ↑num_splits * ↑num_splits) := by
        intro hc
        exact hlt (by exact_mod_cast hc)
      rw [if_neg hgl]
      constructor
      · rintro ⟨rect, hrect⟩
        exact absurd hrect (by simp)
      · intro h
        exact absurd h hlt
  · intro row col hrow hcol
    constructor
    · unfold tile_row_of
      rw [← Int.ofNat_fdiv]
      have : (row * num_splits + col) / num_splits = row := by
        rw [Nat.add_comm, Nat.mul_comm, Nat.add_mul_div_left _ _ hs,
          Nat.div_eq_of_lt hcol, Nat.zero_add]
      rw [this]
    · unfold tile_col_of
      rw [Int.fmod_eq_emod _ (by exact_mod_cast Nat.zero_le num_splits),
        ← Int.ofNat_emod]
      have : (row * num_splits + col) % num_splits = col := by
        rw [Nat.add_comm, Nat.mul_comm, Nat.add_mul_mod_self_left,
          Nat.mod_eq_of_lt hcol]
      rw [this]

/-- Witness for C7: with `N = 3`, region 8 is addressable (`8 < 9`). -/
theorem tile_split_region_count_witness :
    (∃ rect, get_roi_tile_split (10, 7) ((8 : Nat) : Int) ((3 : Nat) : Int) =
      Except.ok rect) ↔ (8 : Nat) < 3 * 3 :=
  (tile_split_region_count 3 (by decide) (10, 7)).1 8

/-! ### Claim C9: negative region indices -/

/-- Claim C9 counterexample: with the valid image size `(5, 2)`,
`num_splits = 4` and the negative region `-1`, the tile-grid partitioner
raises no error but returns `Rectangle(3, 0, 4, 0)`, whose min coordinates
are both non-negative — refuting "min coordinates (tile-grid) are
negative". -/
theorem tile_split_negative_region_counterexample :
    get_roi_tile_split (5, 2) (-1) 4 =
      Except.ok { min_x := 3, min_y := 0, max_x := 4, max_y := 0 } ∧
    (0 : Int) ≤ 3 ∧ (0 : Int) ≤ 0 ∧ (-1 : Int) < 0 ∧
    (0 : Int) < 5 ∧ (0 : Int) < 2 ∧ (0 : Int) < 4 := by
  refine ⟨rfl, by decide, by decide, by decide, by decide, by decide, by decide⟩

/-- Claim C9 amended: for every negative `region_index` (valid image size,
`num_splits > 0`) both partitioners raise no error; the horizontal-band
Rectangle always has `min_y < 0`, while the tile-grid Rectangle has
`min_x ≥ 0` and `min_y ≤ 0`, with `min_y < 0` exactly when the floored tile
height `height // num_splits` is positive.  The lower bound
`0 ≤ region_index` is never checked. -/
theorem negative_region_no_error (w h num_splits region : Int) (hw : 0 < w)
    (hh : 0 < h) (hs : 0 < num_splits) (hr : region < 0) :
    (∃ rect, get_roi_horiz_band_split (w, h) region num_splits =
      Except.ok rect ∧ rect.min_y < 0) ∧
    (∃ rect, get_roi_tile_split (w, h) region num_splits =
      Except.ok rect ∧ 0 ≤ rect.min_x ∧ rect.min_y ≤ 0 ∧
      (rect.min_y < 0 ↔ 0 < Int.fdiv h num_splits)) := by
  have hns0 : num_splits ≠ 0 := by omega
  have hnsnn : (0 : Int) ≤ num_splits := le_of_lt hs
  constructor
  · unfold get_roi_horiz_band_split
    rw [if_pos (lt_trans hr hs)]
    refine ⟨_, rfl, ?_⟩
    show Int.fdiv (h * region) num_splits < 0
    rw [Int.fdiv_eq_ediv _ hnsnn]
    exact Int.ediv_neg' (mul_neg_of_pos_of_neg hh hr) hs
  · unfold get_roi_tile_split
    have hguard : region < num_splits * num_splits :=
      lt_of_lt_of_le hr (le_of_lt (mul_pos hs hs))
    rw [if_pos hguard]
    refine ⟨_, rfl, ?_, ?_, ?_⟩
    · show (0 : Int) ≤ Int.fdiv w num_splits * tile_col_of region num_splits
      apply mul_nonneg
      · rw [Int.fdiv_eq_ediv _ hnsnn]
        exact Int.ediv_nonneg (le_of_lt hw) hnsnn
      · unfold tile_col_of
        rw [Int.fmod_eq_emod _ hnsnn]
        exact Int.emod_nonneg region hns0
    · show Int.fdiv h num_splits * tile_row_of region num_splits ≤ 0
      apply mul_nonpos_of_nonneg_of_nonpos
      · rw [Int.fdiv_eq_ediv _ hnsnn]
        exact Int.ediv_nonneg (le_of_lt hh) hnsnn
      · unfold tile_row_of
        rw [Int.fdiv_eq_ediv _ hnsnn]
        exact le_of_lt (Int.ediv_neg' hr hs)
    · show Int.fdiv h num_splits * tile_row_of region num_splits < 0 ↔
        0 < Int.fdiv h num_splits
      have hrow : tile_row_of region num_splits < 0 := by
        unfold tile_row_of
        rw [Int.fdiv_eq_ediv _ hnsnn]
        exact Int.ediv_neg' hr hs
      have hth : (0 : Int) ≤ Int.fdiv h num_splits := by
        rw [Int.fdiv_eq_ediv _ hnsnn]
        exact Int.ediv_nonneg (le_of_lt hh) hnsnn
      constructor
      · intro hlt
        rcases lt_or_eq_of_le hth with hpos | hzero
        · exact hpos
        · rw [← hzero] at hlt
          simp at hlt
      · intro hpos
        exact mul_neg_of_pos_of_neg hpos hrow

/-- Witness for C9 (amended) at `(w, h) = (5, 2)`, `num_splits = 4`,
`region = -1`. -/
theorem negative_region_no_error_witness :
    (∃ rect, get_roi_horiz_band_split (5, 2) (-1) 4 =
      Except.ok rect ∧ rect.min_y < 0) ∧
    (∃ rect, get_roi_tile_split (5, 2) (-1) 4 =
      Except.ok rect ∧ 0 ≤ rect.min_x ∧ rect.min_y ≤ 0 ∧
      (rect.min_y < 0 ↔ 0 < Int.fdiv 2 4)) :=
  negative_region_no_error 5 2 4 (-1) (by decide) (by decide) (by decide)
    (by decide)

/-! ### Claim C10: unrecognized image types raise `KeyError` -/

/-- Claim C10: for every `image_type` outside
`{landsat, worldview, tif, rgba}`, dataset construction fails with the
dictionary's `KeyError`, not the intended "Unrecognized input type"
exception, because the handler catches `IndexError` instead of `KeyError`. -/
theorem unrecognized_type_raises_keyerror (image_type : String)
    (walked : List (List Char)) (num_regions : Nat)
    (h1 : image_type ≠ "landsat") (h2 : image_type ≠ "worldview")
    (h3 : image_type ≠ "tif") (h4 : image_type ≠ "rgba") :
    imagery_dataset_init image_type walked num_regions =
      Except.error PyError.keyError ∧
    PyError.keyError ≠ PyError.unrecognizedType := by
  refine ⟨?_, by decide⟩
  have e1 : ("landsat" == image_type) = false :=
    beq_eq_false_iff_ne.mpr (Ne.symm h1)
  have e2 : ("worldview" == image_type) = false :=
    beq_eq_false_iff_ne.mpr (Ne.symm h2)
  have e3 : ("tif" == image_type) = false :=
    beq_eq_false_iff_ne.mpr (Ne.symm h3)
  have e4 : ("rgba" == image_type) = false :=
    beq_eq_false_iff_ne.mpr (Ne.symm h4)
  unfold imagery_dataset_init dictLookup num_bands_dict
  simp only [List.find?, e1, e2, e3, e4]
  rfl

/-- Witness for C10 at the unrecognized type `"png"`. -/
theorem unrecognized_type_raises_keyerror_witness :
    imagery_dataset_init "png" [] 4 = Except.error PyError.keyError ∧
    PyError.keyError ≠ PyError.unrecognizedType :=
  unrecognized_type_raises_keyerror "png" [] 4 (by decide) (by decide)
    (by decide) (by decide)

/-! ### Claims C4 and C5: the descriptor codec -/

/-- The unsigned parser accepts exactly the strings `str` produces. -/
theorem parseUnsigned_natToDigits (r : Nat) :
    parseUnsigned (natToDigits r) = some r := by
  obtain ⟨hne, hdig, hval⟩ := natToDigits_spec r
  unfold parseUnsigned
  rw [if_neg, if_pos]
  · rw [hval]
  · exact List.all_eq_true.mpr (fun c hc => hdig c hc)
  · simp only [List.isEmpty_iff]
    exact hne

/-- Python `int` parses `str(r)` back to `r`. -/
theorem pyInt_natToDigits (r : Nat) : pyInt (natToDigits r) = some (r : Int) := by
  obtain ⟨hne, hdig, hval⟩ := natToDigits_spec r
  unfold pyInt
  rw [stripChars_eq_self (fun c hc => isDigit_not_whitespace (hdig c hc))]
  cases hd : natToDigits r with
  | nil => exact absurd hd hne
  | cons c rest =>
    have hcdig : c.isDigit = true := hdig c (by rw [hd]; simp)
    have hc1 : ¬(c = '-') := by
      intro e
      rw [e] at hcdig
      exact absurd hcdig (by decide)
    have hc2 : ¬(c = '+') := by
      intro e
      rw [e] at hcdig
      exact absurd hcdig (by decide)
    show (if c = '-' then (parseUnsigned rest).map (fun n => -(n : Int))
      else if c = '+' then (parseUnsigned rest).map (fun n => (n : Int))
      else (parseUnsigned (c :: rest)).map (fun n => (n : Int))) = some (r : Int)
    rw [if_neg hc1, if_neg hc2, ← hd, parseUnsigned_natToDigits]
    rfl

/-- Claim C4 counterexample: the comma-free path `" a"` carries leading
whitespace, and decoding the encoded line strips it, so the round-trip
returns `("a", 0)`, not the original `(" a", 0)`. -/
theorem decode_encode_strips_whitespace :
    decode_descriptor (encode_descriptor [' ', 'a'] 0) =
      Except.ok (['a'], (0 : Int)) ∧
    ([' ', 'a'] : List Char) ≠ ['a'] := by
  constructor
  · rfl
  · decide

/-- Claim C4 amended: for every source path that contains no comma and
carries no leading or trailing whitespace (it equals its own strip), and
every non-negative index, decoding the encoded descriptor line returns
exactly the original pair. -/
theorem decode_encode_roundtrip (path : List Char) (r : Nat)
    (hcomma : ',' ∉ path) (htrim : stripChars path = path) :
    decode_descriptor (encode_descriptor path r) =
      Except.ok (path, (r : Int)) := by
  obtain ⟨hne, hdig, hval⟩ := natToDigits_spec r
  have hnc : ',' ∉ natToDigits r := by
    intro hm
    exact absurd (hdig ',' hm) (by decide)
  have hstripd : stripChars (natToDigits r) = natToDigits r :=
    stripChars_eq_self (fun c hc => isDigit_not_whitespace (hdig c hc))
  unfold encode_descriptor decode_descriptor
  rw [splitOnComma_append path (natToDigits r) hcomma,
    splitOnComma_no_comma hnc]
  show (match pyInt (stripChars (natToDigits r)) with
    | some n => Except.ok (stripChars path, n)
    | none => Except.error PyError.valueError) = Except.ok (path, (r : Int))
  rw [hstripd, pyInt_natToDigits]
  show Except.ok (stripChars path, (r : Int)) = Except.ok (path, (r : Int))
  rw [htrim]

/-- Witness for C4 (amended) at path `"a"`, index 7. -/
theorem decode_encode_roundtrip_witness :
    decode_descriptor (encode_descriptor ['a'] 7) =
      Except.ok (['a'], (7 : Int)) :=
  decode_encode_roundtrip ['a'] 7 (by decide) (by decide)

/-- Claim C5 counterexample: the line `"p,-3"` has two comma-separated
fields and a negative index field, and decoding succeeds with `-3` instead
of failing — refuting "a negative index field must be rejected". -/
theorem decode_accepts_negative_index :
    decode_descriptor ['p', ',', '-', '3'] = Except.ok (['p'], (-3 : Int)) ∧
    (-3 : Int) < 0 := by
  constructor
  · rfl
  · decide

/-- Claim C5 amended: decoding trims whitespace around both fields and
fails exactly when fewer than two comma-separated fields are present
(`IndexError`) or the stripped index field does not parse as an
optionally-signed decimal integer (`ValueError`); a negative index field
such as `-r` is parsed successfully to the negative value, not rejected. -/
theorem decode_descriptor_spec (line : List Char) (r : Nat) :
    (decode_descriptor line =
      if 2 ≤ (splitOnComma line).length then
        match pyInt (stripChars ((splitOnComma line).getD 1 [])) with
        | some n => Except.ok (stripChars ((splitOnComma line).getD 0 []), n)
        | none => Except.error PyError.valueError
      else Except.error PyError.indexError) ∧
    pyInt ('-' :: natToDigits r) = some (-(r : Int)) := by
  constructor
  · cases hsp : splitOnComma line with
    | nil =>
      unfold decode_descriptor
      rw [hsp]
      simp
    | cons p0 tl =>
      cases tl with
      | nil =>
        unfold decode_descriptor
        rw [hsp]
        simp
      | cons p1 rest =>
        unfold decode_descriptor
        rw [hsp]
        have hlen : 2 ≤ (p0 :: p1 :: rest).length := by
          simp
        rw [if_pos hlen]
        simp only [List.getD_cons_succ, List.getD_cons_zero]
  · obtain ⟨hne, hdig, hval⟩ := natToDigits_spec r
    have hstrip : stripChars ('-' :: natToDigits r) = '-' :: natToDigits r := by
      apply stripChars_eq_self
      intro c hc
      rcases List.mem_cons.1 hc with hc | hc
      · rw [hc]
        decide
      · exact isDigit_not_whitespace (hdig c hc)
    unfold pyInt
    rw [hstrip]
    show (if '-' = '-' then (parseUnsigned (natToDigits r)).map (fun n => -(n : Int))
      else if '-' = '+' then (parseUnsigned (natToDigits r)).map (fun n => (n : Int))
      else (parseUnsigned ('-' :: natToDigits r)).map (fun n => (n : Int)))
        = some (-(r : Int))
    rw [if_pos rfl, parseUnsigned_natToDigits]
    rfl

/-! ### Claim C3: horizontal-band coverage -/

/-- Claim C3: for every positive image size and `num_splits > 0`, the
horizontal-band Rectangles over `region ∈ [0, num_splits)` have
`min_x = 0`, `max_x = width`, their `y`-bands together cover `[0, height)`,
and adjacent bands deviate by at most one pixel at each boundary (in fact
they abut exactly: `max_y` of one band equals `min_y` of the next). -/
theorem horiz_band_split_covers (w h num_splits : Nat) (hw : 0 < w)
    (hh : 0 < h) (hs : 0 < num_splits) :
    (∀ region : Nat, region < num_splits →
      get_roi_horiz_band_split ((w : Int), (h : Int)) (↑region) (↑num_splits) =
        Except.ok
          { min_x := 0
            min_y := ↑(region * h / num_splits)
            max_x := ↑w
            max_y := ↑((region + 1) * h / num_splits) }) ∧
    (∀ y : Nat, y < h → ∃ region : Nat, region < num_splits ∧
      region * h / num_splits ≤ y ∧ y < (region + 1) * h / num_splits) ∧
    (∀ region : Nat, region + 1 < num_splits →
      ∃ r1 r2 : Rectangle,
        get_roi_horiz_band_split ((w : Int), (h : Int)) (↑region)
          (↑num_splits) = Except.ok r1 ∧
        get_roi_horiz_band_split ((w : Int), (h : Int)) (↑region + 1)
          (↑num_splits) = Except.ok r2 ∧
        r1.max_y = r2.min_y) := by
  have hform : ∀ region : Nat, region < num_splits →
      get_roi_horiz_band_split ((w : Int), (h : Int)) (↑region) (↑num_splits) =
        Except.ok
          { min_x := 0
            min_y := ↑(region * h / num_splits)
            max_x := ↑w
            max_y := ↑((region + 1) * h / num_splits) } := by
    intro region hregion
    unfold get_roi_horiz_band_split
    rw [if_pos (by exact_mod_cast hregion)]
    have hmin : Int.fdiv ((h : Int) * ↑region) ↑num_splits =
        ↑(region * h / num_splits) := by
      rw [Int.ofNat_fdiv]
      congr 1
      push_cast
      ring
    have hmax : Int.fdiv ((h : Int) * (↑region + 1)) ↑num_splits =
        ↑((region + 1) * h / num_splits) := by
      rw [Int.ofNat_fdiv]
      congr 1
      push_cast
      ring
    rw [show ((w : Int), (h : Int)).2 = (h : Int) from rfl,
      show ((w : Int), (h : Int)).1 = (w : Int) from rfl, hmin, hmax]
  refine ⟨hform, ?_, ?_⟩
  · intro y hy
    obtain ⟨k, hk, hlo, hhi⟩ := nat_div_band_coverage h num_splits y hs hy
    exact ⟨k, hk, hlo, hhi⟩
  · intro region hreg
    have hA := hform region (by omega : region < num_splits)
    have hB := hform (region + 1) hreg
    have hcast : ((region : Int) + 1) = ((region + 1 : Nat) : Int) := by
      push_cast
      ring
    rw [← hcast] at hB
    exact ⟨_, _, hA, hB, rfl⟩

/-- Witness for C3 at the spec's concrete scenario: image `(100, 40)`,
`num_splits = 4`, region 3 is the band `[30, 40)`. -/
theorem horiz_band_split_covers_witness :
    get_roi_horiz_band_split (100, 40) 3 4 =
      Except.ok { min_x := 0, min_y := 30, max_x := 100, max_y := 40 } := by
  have := (horiz_band_split_covers 100 40 4 (by decide) (by decide)
    (by decide)).1 3 (by decide)
  simpa using this

/-! ### Claim C8: empty manifests abort construction -/

/-- Claim C8: whenever the manifest build returns zero entries (for the
extension the configured image type resolves to), `ImageryDataset.__init__`
fails its `assert self._num_regions > 0` instead of producing a dataset. -/
theorem init_fails_on_empty_manifest (image_type : String)
    (walked : List (List Char)) (num_regions : Nat) (e : String)
    (hext : dictLookup ext_dict image_type = Except.ok e)
    (hcount : (make_image_list walked e.data num_regions).2 = 0) :
    imagery_dataset_init image_type walked num_regions =
      Except.error PyError.assertionError := by
  by_cases h1 : image_type = "landsat"
  · subst h1
    have he : e = ".gz" := by
      rw [show dictLookup ext_dict "landsat" = Except.ok ".gz" from rfl] at hext
      exact Except.ok.inj hext.symm
    subst he
    unfold imagery_dataset_init
    rw [show tryExceptIndexError (dictLookup num_bands_dict "landsat")
      PyError.unrecognizedType = Except.ok 8 from rfl]
    rw [show tryExceptIndexError (dictLookup ext_dict "landsat")
      PyError.unrecognizedType = Except.ok ".gz" from rfl]
    simp only [hcount]
    rfl
  by_cases h2 : image_type = "worldview"
  · subst h2
    have he : e = ".zip" := by
      rw [show dictLookup ext_dict "worldview" = Except.ok ".zip" from rfl] at hext
      exact Except.ok.inj hext.symm
    subst he
    unfold imagery_dataset_init
    rw [show tryExceptIndexError (dictLookup num_bands_dict "worldview")
      PyError.unrecognizedType = Except.ok 8 from rfl]
    rw [show tryExceptIndexError (dictLookup ext_dict "worldview")
      PyError.unrecognizedType = Except.ok ".zip" from rfl]
    simp only [hcount]
    rfl
  by_cases h3 : image_type = "tif"
  · subst h3
    have he : e = ".tif" := by
      rw [show dictLookup ext_dict "tif" = Except.ok ".tif" from rfl] at hext
      exact Except.ok.inj hext.symm
    subst he
    unfold imagery_dataset_init
    rw [show tryExceptIndexError (dictLookup num_bands_dict "tif")
      PyError.unrecognizedType = Except.ok 3 from rfl]
    rw [show tryExceptIndexError (dictLookup ext_dict "tif")
      PyError.unrecognizedType = Except.ok ".tif" from rfl]
    simp only [hcount]
    rfl
  by_cases h4 : image_type = "rgba"
  · subst h4
    have he : e = ".tif" := by
      rw [show dictLookup ext_dict "rgba" = Except.ok ".tif" from rfl] at hext
      exact Except.ok.inj hext.symm
    subst he
    unfold imagery_dataset_init
    rw [show tryExceptIndexError (dictLookup num_bands_dict "rgba")
      PyError.unrecognizedType = Except.ok 3 from rfl]
    rw [show tryExceptIndexError (dictLookup ext_dict "rgba")
      PyError.unrecognizedType = Except.ok ".tif" from rfl]
    simp only [hcount]
    rfl
  · exfalso
    have e1 : ("landsat" == image_type) = false :=
      beq_eq_false_iff_ne.mpr (Ne.symm h1)
    have e2 : ("worldview" == image_type) = false :=
      beq_eq_false_iff_ne.mpr (Ne.symm h2)
    have e3 : ("tif" == image_type) = false :=
      beq_eq_false_iff_ne.mpr (Ne.symm h3)
    have e4 : ("rgba" == image_type) = false :=
      beq_eq_false_iff_ne.mpr (Ne.symm h4)
    unfold dictLookup ext_dict at hext
    simp only [List.find?, e1, e2, e3, e4] at hext
    exact Except.noConfusion hext

/-- Witness for C8: an empty folder walk with image type `"tif"` yields an
empty manifest, and construction fails the positivity assertion. -/
theorem init_fails_on_empty_manifest_witness :
    imagery_dataset_init "tif" [] 4 = Except.error PyError.assertionError :=
  init_fails_on_empty_manifest "tif" [] 4 ".tif" rfl rfl

/-! ### Claim C2: the batch filter versus the inline filter -/

/-- A zero count of zero pixels means every pixel is non-zero. -/
theorem countP_zero_iff_all_nonzero (l : List Int) :
    (l.countP (fun p => p == 0) == 0) = true ↔ ∀ p ∈ l, p ≠ 0 := by
  rw [beq_iff_eq, List.countP_eq_zero]
  constructor
  · intro h p hp
    simpa using h p hp
  · intro h p hp
    simpa using h p hp

/-- Effect of one `check_chunks` index range on a single flag: the flag is
cleared exactly when it was already clear or the index lies in the range
and its chunk fails the test. -/
theorem range_pass_false_iff (b : ChunkBatch) :
    ∀ (k a : Nat) (flags : Nat → Bool) (i : Nat),
      (((List.range' a k).foldl
        (fun fl j => if chunkPasses b j then fl
          else fun j2 => if j2 = j then false else fl j2) flags) i = false) ↔
      (flags i = false ∨ (a ≤ i ∧ i < a + k ∧ chunkPasses b i = false)) := by
  intro k
  induction k with
  | zero =>
    intro a flags i
    show flags i = false ↔ _
    constructor
    · intro h
      exact Or.inl h
    · rintro (h | ⟨h1, h2, h3⟩)
      · exact h
      · omega
  | succ k ih =>
    intro a flags i
    rw [List.range'_succ, List.foldl_cons, ih (a + 1)]
    by_cases hpa : chunkPasses b a
    · rw [if_pos hpa]
      constructor
      · rintro (h | ⟨h1, h2, h3⟩)
        · exact Or.inl h
        · exact Or.inr ⟨by omega, by omega, h3⟩
      · rintro (h | ⟨h1, h2, h3⟩)
        · exact Or.inl h
        · by_cases hia : i = a
          · rw [hia] at h3
            rw [hpa] at h3
            exact Bool.noConfusion h3
          · exact Or.inr ⟨by omega, by omega, h3⟩
    · rw [if_neg hpa]
      have hpaf : chunkPasses b a = false := by
        revert hpa
        cases chunkPasses b a <;> simp
      constructor
      · rintro (h | ⟨h1, h2, h3⟩)
        · have h' : (if i = a then false else flags i) = false := h
          by_cases hia : i = a
          · refine Or.inr ⟨by omega, by omega, ?_⟩
            rw [hia]
            exact hpaf
          · rw [if_neg hia] at h'
            exact Or.inl h'
        · exact Or.inr ⟨by omega, by omega, h3⟩
      · rintro (h | ⟨h1, h2, h3⟩)
        · left
          show (if i = a then false else flags i) = false
          by_cases hia : i = a
          · rw [if_pos hia]
          · rw [if_neg hia]
            exact h
        · by_cases hia : i = a
          · left
            show (if i = a then false else flags i) = false
            rw [if_pos hia]
          · exact Or.inr ⟨by omega, by omega, h3⟩

/-- Folding `check_chunks` over a list of index ranges clears exactly the
flags of indices that fail the test inside some range. -/
theorem splits_fold_false_iff (b : ChunkBatch) :
    ∀ (ss : List (Nat × Nat)) (flags : Nat → Bool) (i : Nat),
      ((ss.foldl (check_chunks b) flags) i = false) ↔
      (flags i = false ∨
        ∃ p ∈ ss, p.1 ≤ i ∧ i < p.2 ∧ chunkPasses b i = false) := by
  intro ss
  induction ss with
  | nil =>
    intro flags i
    simp
  | cons p ps ih =>
    intro flags i
    rw [List.foldl_cons, ih (check_chunks b flags p) i]
    have hhead : check_chunks b flags p i = false ↔
        (flags i = false ∨
          (p.1 ≤ i ∧ i < p.1 + (p.2 - p.1) ∧ chunkPasses b i = false)) := by
      unfold check_chunks
      exact range_pass_false_iff b (p.2 - p.1) p.1 flags i
    rw [hhead]
    constructor
    · rintro ((h | ⟨h1, h2, h3⟩) | ⟨q, hq, hc⟩)
      · exact Or.inl h
      · exact Or.inr ⟨p, List.mem_cons_self p ps, h1, by omega, h3⟩
      · exact Or.inr ⟨q, List.mem_cons_of_mem p hq, hc⟩
    · rintro (h | ⟨q, hq, h1, h2, h3⟩)
      · exact Or.inl (Or.inl h)
      · rcases List.mem_cons.1 hq with hqp | hqs
        · subst hqp
          exact Or.inl (Or.inr ⟨h1, by omega, h3⟩)
        · exact Or.inr ⟨q, hqs, h1, h2, h3⟩

/-- After the full thread pool has run, the flag of every in-range chunk
index equals the band-0 nonzero test: the thread splits cover `[0, n)`. -/
theorem parallel_filter_flags_eq (b : ChunkBatch) (num_threads : Nat)
    (hnt : 0 < num_threads) (i : Nat) (hi : i < b.chunks.length) :
    parallel_filter_chunks_flags b num_threads i = chunkPasses b i := by
  have hcov : ∃ p ∈ thread_splits b.chunks.length num_threads,
      p.1 ≤ i ∧ i < p.2 := by
    obtain ⟨k, hk, hlo, hhi⟩ :=
      nat_div_band_coverage b.chunks.length num_threads i hnt hi
    refine ⟨(k * b.chunks.length / num_threads,
      (k + 1) * b.chunks.length / num_threads), ?_, hlo, hhi⟩
    unfold thread_splits
    exact List.mem_map.2 ⟨k, List.mem_range.2 hk, rfl⟩
  have hiff := splits_fold_false_iff b
    (thread_splits b.chunks.length num_threads) (fun _ => true) i
  unfold parallel_filter_chunks_flags
  cases hpass : chunkPasses b i with
  | true =>
    cases hfl : (thread_splits b.chunks.length num_threads).foldl
        (check_chunks b) (fun _ => true) i with
    | true => rfl
    | false =>
      rcases hiff.1 hfl with h | ⟨q, hq, h1, h2, h3⟩
      · exact absurd h (by simp)
      · rw [hpass] at h3
        exact Bool.noConfusion h3
  | false =>
    obtain ⟨p, hp, h1, h2⟩ := hcov
    exact hiff.2 (Or.inr ⟨p, hp, h1, h2, hpass⟩)

/-- Sum of the lengths of equal-length lists. -/
theorem sum_map_length_const {α : Type} :
    ∀ (l : List (List α)) (c : Nat), (∀ x ∈ l, x.length = c) →
      (l.map List.length).sum = l.length * c := by
  intro l
  induction l with
  | nil =>
    intro c _
    simp
  | cons a t ih =>
    intro c h
    simp only [List.map_cons, List.sum_cons, List.length_cons]
    rw [h a (by simp), ih c (fun x hx => h x (by simp [hx]))]
    ring

/-- Reading `getD` at an in-range index gives a member of the list. -/
theorem getD_mem_of_lt {α : Type} (l : List α) (d : α) (j : Nat)
    (h : j < l.length) : l.getD j d ∈ l := by
  rw [List.getD_eq_getElem?_getD, List.getElem?_eq_getElem h]
  exact List.getElem_mem h

/-- In a well-formed batch, band 0 of an in-range chunk holds exactly
`width * height` pixels. -/
theorem bandZero_flatten_length (b : ChunkBatch) (i : Nat)
    (hwf : b.WellFormed) (hnb : 0 < b.num_bands) (hi : i < b.chunks.length) :
    (bandZero b i).flatten.length = b.width * b.height := by
  unfold bandZero
  have hmem : b.chunks.getD i [] ∈ b.chunks := getD_mem_of_lt _ _ _ hi
  obtain ⟨hlen, hband⟩ := hwf _ hmem
  have h0 : 0 < (b.chunks.getD i []).length := by
    rw [hlen]
    exact hnb
  have hmem0 : (b.chunks.getD i []).getD 0 [] ∈ b.chunks.getD i [] :=
    getD_mem_of_lt _ _ _ h0
  obtain ⟨hwidth, hrows⟩ := hband _ hmem0
  rw [List.length_flatten,
    sum_map_length_const _ b.height (fun row hr => hrows row hr), hwidth]

/-- The per-chunk test of the batch filter succeeds exactly when every
pixel of the chunk's band 0 is non-zero. -/
theorem chunkPasses_iff_bandZero (b : ChunkBatch) (i : Nat)
    (hwf : b.WellFormed) (hnb : 0 < b.num_bands) (hi : i < b.chunks.length) :
    chunkPasses b i = true ↔ ∀ p ∈ (bandZero b i).flatten, p ≠ 0 := by
  unfold chunkPasses countNonzero
  rw [beq_iff_eq, ← bandZero_flatten_length b i hwf hnb hi,
    List.countP_eq_length]
  constructor
  · intro h p hp
    simpa using h p hp
  · intro h p hp
    simpa using h p hp

/-- The inline test on a single-band chunk checks that band's pixels. -/
theorem inline_is_valid_singleton (band : List (List Int)) :
    inline_is_valid [band] = true ↔ ∀ p ∈ band.flatten, p ≠ 0 := by
  unfold inline_is_valid chunkPixels
  simp only [List.map_cons, List.map_nil, List.flatten_cons, List.flatten_nil,
    List.append_nil]
  exact countP_zero_iff_all_nonzero band.flatten

/-- Claim C2 counterexample: a batch with one two-band chunk whose band 0
is all non-zero but whose band 1 contains a zero — `filter_batch` keeps
index 0 while the inline `is_valid` rejects the chunk, so the two filters
do not classify every chunk identically. -/
theorem batch_filter_disagrees_with_inline :
    parallel_filter_chunks_indices
      { chunks := [[[[1]], [[0]]]], num_bands := 2, width := 1, height := 1 }
      1 = [0] ∧
    inline_is_valid [[[1]], [[0]]] = false := by
  constructor
  · rfl
  · rfl

/-- Claim C2 amended: for every well-formed chunk batch (at least one band,
at least one thread), a chunk index survives `filter_batch` exactly when
the inline predicate holds of the chunk's band 0 alone — the batch filter
tests only `data[i, 0, :, :]`, so the two filters agree on a chunk exactly
when zero pixels, if any, appear in band 0. -/
theorem batch_filter_checks_band_zero_only (b : ChunkBatch)
    (num_threads : Nat) (hwf : b.WellFormed) (hnb : 0 < b.num_bands)
    (hnt : 0 < num_threads) (i : Nat) :
    i ∈ parallel_filter_chunks_indices b num_threads ↔
      i < b.chunks.length ∧ inline_is_valid [bandZero b i] = true := by
  unfold parallel_filter_chunks_indices
  rw [List.mem_filter, List.mem_range]
  constructor
  · rintro ⟨hi, hfl⟩
    refine ⟨hi, ?_⟩
    rw [parallel_filter_flags_eq b num_threads hnt i hi] at hfl
    rw [inline_is_valid_singleton]
    exact (chunkPasses_iff_bandZero b i hwf hnb hi).1 hfl
  · rintro ⟨hi, hvalid⟩
    refine ⟨hi, ?_⟩
    rw [parallel_filter_flags_eq b num_threads hnt i hi]
    rw [inline_is_valid_singleton] at hvalid
    exact (chunkPasses_iff_bandZero b i hwf hnb hi).2 hvalid

/-- A concrete two-band, one-chunk batch used to witness the amended C2. -/
def twoBandBatch : ChunkBatch :=
  { chunks := [[[[2]], [[3]]]], num_bands := 2, width := 1, height := 1 }

/-- Witness for C2 (amended) on a concrete two-band batch. -/
theorem batch_filter_checks_band_zero_only_witness :
    0 ∈ parallel_filter_chunks_indices twoBandBatch 1 ↔
      0 < twoBandBatch.chunks.length ∧
      inline_is_valid [bandZero twoBandBatch 0] = true :=
  batch_filter_checks_band_zero_only twoBandBatch 1 (by decide) (by decide)
    (by decide) 0

end Delta
